import Mathlib

/-!
# Verification of the llama JNI generation engine (`llama_jni.cpp`)

Shallow embedding of the native layer of the Math-Helper-Android app:
`Java_com_mathagent_LlamaEngine_nativeGenerate` (the generation loop) and
`Java_com_mathagent_LlamaEngine_nativeFreeContext` (session teardown).

The underlying inference engine (llama.cpp) is opaque to this layer: its
responses (`llama_decode` success/failure, `common_sampler_sample` results,
`llama_token_to_piece` text, the end-of-sequence id) are modelled as an
`Engine` record of functions.  The sampler's mutable acceptance history
(`common_sampler_accept` / `common_sampler_reset`) is threaded explicitly as a
list of accepted token ids; `common_sampler_sample` may depend on that history
and on the batch index it is given.  Decode results are indexed by the call
number within one `nativeGenerate` invocation (0 = prompt decode, k = the
decode submitted at the end of loop iteration k-1).

The embedding covers the function bodies on an active session (non-null
context/model pointers, callback method resolved), which is the scope of all
the stated claims.  Out-of-bounds array accesses are modelled by `Option`:
`none` marks undefined behaviour.
-/

namespace LlamaJni

/-- One slot of `llama_batch` as filled by `common_batch_add`:
token id, position, sequence id (always 0 here), and the emit-logits flag. -/
structure BatchEntry where
  token : Int
  pos : Int
  seqId : Int
  emitLogits : Bool
deriving Repr, DecidableEq

/-- The batch buffer `g_batch`: the first `n_tokens` filled slots, in order. -/
abbrev Batch := List BatchEntry

/-- `common_batch_add(batch, id, pos, {seqId}, logits)`: append one entry and
increment `n_tokens`. -/
def commonBatchAdd (b : Batch) (token : Int) (pos : Int) (seqId : Int)
    (emitLogits : Bool) : Batch :=
  b ++ [⟨token, pos, seqId, emitLogits⟩]

/-- `common_batch_clear(batch)`: reset `n_tokens` to 0. -/
def commonBatchClear (_b : Batch) : Batch := []

/-- The write `g_batch.logits[g_batch.n_tokens - 1] = true` (line 228).
When the batch is empty this writes `logits[-1]`, an out-of-bounds store:
modelled as `none` (undefined behaviour). -/
def setLastLogits : Batch → Option Batch
  | [] => none
  | [e] => some [{ e with emitLogits := true }]
  | e :: e2 :: rest => (setLastLogits (e2 :: rest)).map (e :: ·)

/-- The opaque inference engine and tokenizer behind the JNI layer.
`decodeOk i b` is the success of the i-th `llama_decode` call of one
`nativeGenerate` invocation when handed batch `b`; `sample hist idx` is the
token returned by `common_sampler_sample` given the sampler's acceptance
history and the batch index; `tokenToPiece` is `llama_token_to_piece`
(empty string when it yields no bytes); `eosId` is `llama_token_eos`. -/
structure Engine where
  decodeOk : Nat → Batch → Bool
  sample : List Int → Nat → Int
  tokenToPiece : Int → String
  eosId : Int

/-- The mutable globals an invocation of `nativeGenerate` starts from:
`g_batch` (never cleared between calls) and the sampler history. -/
structure GState where
  batch : Batch
  hist : List Int
deriving Repr, DecidableEq

/-- The prompt-fill loop (lines 225-227):
`for i in 0..|T|: common_batch_add(g_batch, T[i], i, {0}, false)`.
Note that it appends to the existing batch contents without clearing. -/
def promptFillAux (b : Batch) (T : List Int) (i : Nat) : Batch :=
  match T with
  | [] => b
  | t :: ts => promptFillAux (commonBatchAdd b t (i : Int) 0 false) ts (i + 1)

/-- Result of one `nativeGenerate` call: the returned string, the fragments
delivered to the streaming sink (with their 0-based generation step), the
final `n_generated` counter, and the final global batch/sampler state. -/
structure LoopOut where
  text : String
  frags : List (Nat × String)
  nGen : Nat
  batch : Batch
  hist : List Int
deriving Repr, DecidableEq

/-- The generation loop (lines 239-275).  Each iteration: sample at index
`n_tokens - 1`, accept into the history, convert to a piece, append/deliver it
when non-empty, increment `n_generated`, break on EOS, otherwise clear the
batch and re-add the token — with position read from `g_batch.n_tokens` AFTER
the clear, exactly as in the source (line 268) — and decode, breaking on decode
failure. -/
def genLoop (eng : Engine) (fuel : Nat) (callIdx : Nat) (step : Nat)
    (batch : Batch) (hist : List Int) (acc : String)
    (frags : List (Nat × String)) : LoopOut :=
  match fuel with
  | 0 => ⟨acc, frags, step, batch, hist⟩
  | Nat.succ fuel2 =>
      let token := eng.sample hist (batch.length - 1)
      let hist2 := hist ++ [token]
      let piece := eng.tokenToPiece token
      let acc2 := if piece = "" then acc else acc ++ piece
      let frags2 := if piece = "" then frags else frags ++ [(step, piece)]
      if token = eng.eosId then ⟨acc2, frags2, step + 1, batch, hist2⟩
      else
        let b1 := commonBatchClear batch
        let b2 := commonBatchAdd b1 token (b1.length : Int) 0 true
        if eng.decodeOk callIdx b2 then
          genLoop eng fuel2 (callIdx + 1) (step + 1) b2 hist2 acc2 frags2
        else ⟨acc2, frags2, step + 1, b2, hist2⟩

/-- `Java_com_mathagent_LlamaEngine_nativeGenerate` (lines 188-279) on an
active session.  `T` is the token sequence `common_tokenize` produced for the
prompt (the tokenizer is the engine's; claims quantify over `T`).  The
`temperature` and `grammar` arguments are the raw JNI parameters; the body
never reads either.  Returns `none` when the run hits the out-of-bounds
logits store (empty batch at line 228). -/
def nativeGenerate (eng : Engine) (st : GState) (T : List Int) (maxTokens : Int)
    (temperature : Int) (grammar : Option String) : Option LoopOut :=
  let hist0 : List Int := []
  let b := promptFillAux st.batch T 0
  match setLastLogits b with
  | none => none
  | some b2 =>
    if eng.decodeOk 0 b2 then
      some (genLoop eng maxTokens.toNat 1 0 b2 hist0 "" [])
    else
      some ⟨"", [], 0, b2, hist0⟩

/-- The resources `nativeFreeContext` may release, in the order the code
frees them. -/
inductive Resource where
  | context
  | sampler
  | batch
deriving Repr, DecidableEq

/-- Process state relevant to session teardown: the heap's live
`llama_context` allocations (by pointer value), whether the global sampler
`g_sampler` is non-null, the batch buffer's `n_tokens` count and whether its
arrays are allocated, and the `g_context` global. -/
structure LifeState where
  live : List Nat
  samplerLive : Bool
  batchNTokens : Nat
  batchAlloc : Bool
  gContext : Option Nat
deriving Repr, DecidableEq

/-- Lines 296-306 of `nativeFreeContext`: free `g_sampler` if non-null, free
the batch arrays only when `g_batch.n_tokens > 0` (then `g_batch = {}`), and
null out `g_context`.  Returns the new state plus the release events. -/
def freeSamplerAndBatch (s : LifeState) (r : List Resource) :
    LifeState × List Resource :=
  let p1 : LifeState × List Resource :=
    if s.samplerLive then ({ s with samplerLive := false }, r ++ [Resource.sampler])
    else (s, r)
  let p2 : LifeState × List Resource :=
    if p1.1.batchNTokens > 0 then
      ({ p1.1 with batchAlloc := false, batchNTokens := 0 },
        p1.2 ++ [Resource.batch])
    else p1
  ({ p2.1 with gContext := none }, p2.2)

/-- `Java_com_mathagent_LlamaEngine_nativeFreeContext` (lines 284-307), the
`endSession` operation.  If the passed pointer is non-null the code calls
`llama_free` on it unconditionally (line 290-293): freeing a pointer that is
not a live allocation is undefined behaviour (`none`).  Then the sampler and
batch are released behind their own guards and `g_context` is nulled. -/
def nativeFreeContext (ptr : Nat) (st : LifeState) :
    Option (LifeState × List Resource) :=
  if ptr ≠ 0 then
    if ptr ∈ st.live then
      some (freeSamplerAndBatch { st with live := st.live.erase ptr }
        [Resource.context])
    else none
  else
    some (freeSamplerAndBatch st [])

/-- A concrete deterministic engine: every decode succeeds, sampling always
yields token 7 (not EOS), token 7 renders as "x", and EOS is token 2. -/
def engA : Engine where
  decodeOk := fun _ _ => true
  sample := fun _ _ => 7
  tokenToPiece := fun t => if t = 7 then "x" else if t = 2 then "e" else ""
  eosId := 2

/-- A concrete engine that hits EOS at step 1: every decode succeeds, the
sampler yields 7 for an empty history and EOS (2) once the history holds one
token, 7 renders as "x" and the EOS token renders as the visible text "e". -/
def engB : Engine where
  decodeOk := fun _ _ => true
  sample := fun h _ => if h.length = 1 then 2 else 7
  tokenToPiece := fun tok => if tok = 7 then "x" else if tok = 2 then "e" else ""
  eosId := 2

/-- `e` with every `llama_decode` call from call index `c` onwards failing:
the engine that behaves like `e` until evaluation starts rejecting batches. -/
def cutEngine (e : Engine) (c : Nat) : Engine :=
  { e with decodeOk := fun k b => decide (k < c) && e.decodeOk k b }

/-- Concatenating one more string on the right of a `String.join`. -/
theorem stringJoin_concat (l : List String) (s : String) :
    String.join (l ++ [s]) = String.join l ++ s := by
  apply String.ext
  simp

/-- The step taken on the delivered-fragment list by one loop iteration
(append the fragment when non-empty) preserves the invariant bundle used by
`genLoop_frags_invariant`. -/
theorem frags_step_invariant (step : Nat) (piece : String) (acc : String)
    (frags : List (Nat × String))
    (h1 : ∀ p ∈ frags, p.1 < step)
    (h2 : List.Pairwise (fun p q : Nat × String => p.1 < q.1) frags)
    (h3 : ∀ p ∈ frags, p.2 ≠ "")
    (h4 : String.join (frags.map Prod.snd) = acc) :
    (∀ p ∈ (if piece = "" then frags else frags ++ [(step, piece)]),
        p.1 < step + 1) ∧
      List.Pairwise (fun p q : Nat × String => p.1 < q.1)
        (if piece = "" then frags else frags ++ [(step, piece)]) ∧
      (∀ p ∈ (if piece = "" then frags else frags ++ [(step, piece)]),
        p.2 ≠ "") ∧
      String.join
          ((if piece = "" then frags else frags ++ [(step, piece)]).map
            Prod.snd) =
        (if piece = "" then acc else acc ++ piece) := by
  by_cases hpiece : piece = ""
  · simp only [if_pos hpiece]
    exact ⟨fun p hp => Nat.lt_succ_of_lt (h1 p hp), h2, h3, h4⟩
  · simp only [if_neg hpiece]
    refine ⟨?_, ?_, ?_, ?_⟩
    · intro p hp
      rcases List.mem_append.mp hp with h | h
      · exact Nat.lt_succ_of_lt (h1 p h)
      · simp at h; subst h; exact Nat.lt_succ_self step
    · exact List.pairwise_append.mpr
        ⟨h2, List.pairwise_singleton _ _,
          fun p hp q hq => by simp at hq; subst hq; exact h1 p hp⟩
    · intro p hp
      rcases List.mem_append.mp hp with h | h
      · exact h3 p h
      · simp at h; subst h; exact hpiece
    · rw [List.map_append, List.map_cons, List.map_nil, stringJoin_concat, h4]

theorem genLoop_frags_invariant (eng : Engine) :
    ∀ (fuel callIdx step : Nat) (batch : Batch) (hist : List Int)
      (acc : String) (frags : List (Nat × String)) (o : LoopOut),
      genLoop eng fuel callIdx step batch hist acc frags = o →
      (∀ p ∈ frags, p.1 < step) →
      List.Pairwise (fun p q : Nat × String => p.1 < q.1) frags →
      (∀ p ∈ frags, p.2 ≠ "") →
      String.join (frags.map Prod.snd) = acc →
      (∀ p ∈ o.frags, p.1 < o.nGen) ∧
        List.Pairwise (fun p q : Nat × String => p.1 < q.1) o.frags ∧
        (∀ p ∈ o.frags, p.2 ≠ "") ∧
        String.join (o.frags.map Prod.snd) = o.text := by
  intro fuel
  induction fuel with
  | zero =>
    intro callIdx step batch hist acc frags o ho h1 h2 h3 h4
    simp only [genLoop] at ho
    subst ho
    exact ⟨fun p hp => h1 p hp, h2, h3, h4⟩
  | succ f ih =>
    intro callIdx step batch hist acc frags o ho h1 h2 h3 h4
    simp only [genLoop] at ho
    have hstep := frags_step_invariant step
      (eng.tokenToPiece (eng.sample hist (batch.length - 1))) acc frags
      h1 h2 h3 h4
    split at ho
    · subst ho
      exact hstep
    · split at ho
      · exact ih _ _ _ _ _ _ _ ho hstep.1 hstep.2.1 hstep.2.2.1 hstep.2.2.2
      · subst ho
        exact hstep

/-- The loop's `n_generated` counter bounds the number of delivered fragments
and is itself bounded by the remaining fuel. -/
theorem genLoop_nGen_bound (eng : Engine) :
    ∀ (fuel callIdx step : Nat) (batch : Batch) (hist : List Int)
      (acc : String) (frags : List (Nat × String)) (o : LoopOut),
      genLoop eng fuel callIdx step batch hist acc frags = o →
      frags.length ≤ step →
      o.frags.length ≤ o.nGen ∧ o.nGen ≤ step + fuel := by
  intro fuel
  induction fuel with
  | zero =>
    intro callIdx step batch hist acc frags o ho h
    simp only [genLoop] at ho
    subst ho
    exact ⟨h, Nat.le_refl step⟩
  | succ f ih =>
    intro callIdx step batch hist acc frags o ho h
    simp only [genLoop] at ho
    have hlen :
        (if eng.tokenToPiece (eng.sample hist (batch.length - 1)) = ""
          then frags
          else frags ++
            [(step, eng.tokenToPiece (eng.sample hist (batch.length - 1)))]).length ≤
          step + 1 := by
      by_cases hpiece :
        eng.tokenToPiece (eng.sample hist (batch.length - 1)) = "" <;>
        simp [hpiece] <;> omega
    split at ho
    · subst ho
      exact ⟨hlen, by show step + 1 ≤ step + (f + 1); omega⟩
    · split at ho
      · obtain ⟨hA, hB⟩ := ih _ _ _ _ _ _ _ ho hlen
        exact ⟨hA, by omega⟩
      · subst ho
        exact ⟨hlen, by show step + 1 ≤ step + (f + 1); omega⟩

/-- Running the loop under an engine whose decodes fail from call index `c`
onwards is the same as running it under the healthy engine with the fuel
truncated: the iteration whose decode fails still delivers its fragment, and
nothing already produced is lost. -/
theorem genLoop_cut (e : Engine) (c : Nat)
    (he : ∀ k b, e.decodeOk k b = true) :
    ∀ (fuel callIdx step : Nat) (batch : Batch) (hist : List Int)
      (acc : String) (frags : List (Nat × String)),
      1 ≤ callIdx → callIdx ≤ c →
      genLoop (cutEngine e c) fuel callIdx step batch hist acc frags =
        genLoop e (min fuel (c + 1 - callIdx)) callIdx step batch hist acc
          frags := by
  intro fuel
  induction fuel with
  | zero =>
    intro callIdx step batch hist acc frags h1 h2
    simp [genLoop]
  | succ f ih =>
    intro callIdx step batch hist acc frags h1 h2
    have hmin : min (f + 1) (c + 1 - callIdx) = min f (c - callIdx) + 1 := by
      omega
    rw [hmin]
    simp only [genLoop, cutEngine]
    split
    · rfl
    · rw [he callIdx, Bool.and_true]
      by_cases hlt : callIdx < c
      · rw [if_pos (by simpa using hlt), if_pos rfl]
        have hmin2 : c + 1 - (callIdx + 1) = c - callIdx := by omega
        have := ih (callIdx + 1) (step + 1)
          (commonBatchAdd (commonBatchClear batch)
            (e.sample hist (batch.length - 1))
            ((commonBatchClear batch).length : Int) 0 true)
          (hist ++ [e.sample hist (batch.length - 1)])
          (if e.tokenToPiece (e.sample hist (batch.length - 1)) = "" then acc
            else acc ++ e.tokenToPiece (e.sample hist (batch.length - 1)))
          (if e.tokenToPiece (e.sample hist (batch.length - 1)) = "" then frags
            else frags ++
              [(step, e.tokenToPiece (e.sample hist (batch.length - 1)))])
          (Nat.le_succ_of_le h1) hlt
        rw [hmin2] at this
        exact this
      · have hceq : c - callIdx = 0 := by omega
        rw [if_neg (by simpa using hlt), hceq, Nat.min_zero]
        simp [genLoop]

/-- When the engine emits EOS as soon as the acceptance history reaches
length `k` (and never before), any two fuels large enough to reach that
step produce identical loop results: the loop always stops at the EOS step. -/
theorem genLoop_eos_fuel (eng : Engine) (k : Nat)
    (hdec : ∀ i b, eng.decodeOk i b = true)
    (heos : ∀ h i, List.length h = k → eng.sample h i = eng.eosId)
    (hne : ∀ h i, List.length h < k → eng.sample h i ≠ eng.eosId) :
    ∀ (d fuel1 fuel2 callIdx step : Nat) (batch : Batch) (hist : List Int)
      (acc : String) (frags : List (Nat × String)),
      hist.length + d = k → d + 1 ≤ fuel1 → d + 1 ≤ fuel2 →
      genLoop eng fuel1 callIdx step batch hist acc frags =
        genLoop eng fuel2 callIdx step batch hist acc frags := by
  intro d
  induction d with
  | zero =>
    intro fuel1 fuel2 callIdx step batch hist acc frags hk h1 h2
    cases fuel1 with
    | zero => omega
    | succ f1 =>
      cases fuel2 with
      | zero => omega
      | succ f2 =>
        simp only [genLoop]
        rw [if_pos (heos hist _ (by omega)), if_pos (heos hist _ (by omega))]
  | succ d ih =>
    intro fuel1 fuel2 callIdx step batch hist acc frags hk h1 h2
    cases fuel1 with
    | zero => omega
    | succ f1 =>
      cases fuel2 with
      | zero => omega
      | succ f2 =>
        simp only [genLoop]
        rw [if_neg (hne hist _ (by omega)), if_neg (hne hist _ (by omega)),
          hdec callIdx, if_pos rfl, if_pos rfl]
        exact ih f1 f2 (callIdx + 1) (step + 1) _ _ _ _
          (by simp only [List.length_append, List.length_cons,
            List.length_nil]; omega) (by omega) (by omega)

/-- When the engine emits EOS exactly at history length `k`, a run started
with `step = |hist|` and enough fuel ends with `n_generated = k + 1`, and —
when the EOS token renders as non-empty text — the EOS fragment is the last
one delivered to the sink, tagged with step `k`. -/
theorem genLoop_eos_last (eng : Engine) (k : Nat)
    (hdec : ∀ i b, eng.decodeOk i b = true)
    (heos : ∀ h i, List.length h = k → eng.sample h i = eng.eosId)
    (hne : ∀ h i, List.length h < k → eng.sample h i ≠ eng.eosId) :
    ∀ (d fuel callIdx : Nat) (batch : Batch) (hist : List Int)
      (acc : String) (frags : List (Nat × String)),
      hist.length + d = k → d + 1 ≤ fuel →
      (genLoop eng fuel callIdx hist.length batch hist acc frags).nGen =
          k + 1 ∧
        (eng.tokenToPiece eng.eosId ≠ "" →
          (genLoop eng fuel callIdx hist.length batch hist acc
              frags).frags.getLast? =
            some (k, eng.tokenToPiece eng.eosId)) := by
  intro d
  induction d with
  | zero =>
    intro fuel callIdx batch hist acc frags hk h1
    cases fuel with
    | zero => omega
    | succ f =>
      simp only [genLoop]
      rw [if_pos (heos hist _ (by omega)), heos hist _ (by omega)]
      constructor
      · show hist.length + 1 = k + 1
        omega
      · intro hp
        simp only [if_neg hp]
        show (frags ++ [(hist.length, eng.tokenToPiece eng.eosId)]).getLast? =
          some (k, eng.tokenToPiece eng.eosId)
        have hlk : hist.length = k := by omega
        rw [hlk, List.getLast?_concat]
  | succ d ih =>
    intro fuel callIdx batch hist acc frags hk h1
    cases fuel with
    | zero => omega
    | succ f =>
      simp only [genLoop]
      rw [if_neg (hne hist _ (by omega)), hdec callIdx, if_pos rfl]
      have := ih f (callIdx + 1)
        (commonBatchAdd (commonBatchClear batch)
          (eng.sample hist (batch.length - 1))
          ((commonBatchClear batch).length : Int) 0 true)
        (hist ++ [eng.sample hist (batch.length - 1)])
        (if eng.tokenToPiece (eng.sample hist (batch.length - 1)) = "" then acc
          else acc ++ eng.tokenToPiece (eng.sample hist (batch.length - 1)))
        (if eng.tokenToPiece (eng.sample hist (batch.length - 1)) = "" then
          frags
          else frags ++
            [(hist.length, eng.tokenToPiece (eng.sample hist (batch.length - 1)))])
        (by simp only [List.length_append, List.length_cons,
          List.length_nil]; omega) (by omega)
      simpa only [List.length_append, List.length_cons, List.length_nil]
        using this

end LlamaJni

namespace LlamaJni

/-- C1: the claim says that after a sampled non-EOS token the batch is cleared
and the token inserted at the next sequential position (one past the last
evaluated position).  Evaluating the code at the failing input: prompt
`[1,2,3]` (positions 0..2 evaluated, so the next sequential position is 3),
one generated non-EOS token 7.  The batch submitted for the next evaluation is
`[⟨7, 0, 0, true⟩]`: the token is placed at position 0, because line 268 reads
`g_batch.n_tokens` after `common_batch_clear` has already reset it to 0. -/
theorem C1_next_token_inserted_at_position_zero :
    nativeGenerate engA ⟨[], []⟩ [1, 2, 3] 1 0 none =
      some ⟨"x", [(0, "x")], 1, [⟨7, 0, 0, true⟩], [7]⟩ ∧
    ([⟨7, 0, 0, true⟩] : Batch).map BatchEntry.pos ≠ [3] := by
  refine ⟨rfl, by decide⟩

/-- C2: the claim says the prompt fill leaves exactly the `|T|` fresh entries
even on a second `generate` call of the same session.  Evaluating the code:
first call with prompt `[10, 11]`, `maxTokens = 0`, leaves the prompt batch in
the globals; the second call with prompt `[12]` appends after the stale
entries (the code never clears the batch before the prompt fill, lines
225-228), so the batch holds 3 entries — two of them with the emit-logits flag
set — instead of the single entry `⟨12, 0, 0, true⟩` the claim requires. -/
theorem C2_second_call_keeps_stale_batch_entries :
    nativeGenerate engA ⟨[], []⟩ [10, 11] 0 0 none =
      some ⟨"", [], 0, [⟨10, 0, 0, false⟩, ⟨11, 1, 0, true⟩], []⟩ ∧
    nativeGenerate engA ⟨[⟨10, 0, 0, false⟩, ⟨11, 1, 0, true⟩], []⟩ [12] 0 0 none =
      some ⟨"", [], 0,
        [⟨10, 0, 0, false⟩, ⟨11, 1, 0, true⟩, ⟨12, 0, 0, true⟩], []⟩ ∧
    ([⟨10, 0, 0, false⟩, ⟨11, 1, 0, true⟩, ⟨12, 0, 0, true⟩] : Batch) ≠
      [⟨12, 0, 0, true⟩] := by
  refine ⟨rfl, rfl, by decide⟩

/-- C3: the claim says an empty token sequence makes `generate` return an
empty result immediately, with no evaluation call and no logits write.
Evaluating the code on a fresh session with `T = []`: the prompt-fill loop
adds nothing, and line 228 then stores through `logits[n_tokens - 1]` with
`n_tokens = 0` — an out-of-bounds write (modelled `none`), after which
`llama_decode` would still be called on the batch.  There is no early
return for empty `T` anywhere in lines 224-233. -/
theorem C3_empty_prompt_hits_out_of_bounds_logits_write :
    nativeGenerate engA ⟨[], []⟩ [] 5 0 none = none := rfl

/-- C4 counterexample: the claim asserts that for some logits a
grammar-constrained call selects a different token than an unconstrained one.
Its negation holds: `nativeGenerate` never reads its grammar argument
(the `grammar` JNI parameter and the `g_grammar` global are both unused in
lines 188-279), so no input whatsoever distinguishes the two calls. -/
theorem C4_no_input_distinguishes_grammar :
    ¬ ∃ (eng : Engine) (st : GState) (T : List Int) (m : Int) (t : Int)
        (g : String),
      nativeGenerate eng st T m t (some g) ≠ nativeGenerate eng st T m t none :=
  fun ⟨_, _, _, _, _, _, h⟩ => h rfl

/-- C4 (amended): the grammar argument of `generate` is ignored — sampling is
unconstrained regardless of the supplied grammar, and a grammar-constrained
call returns the same text, the same fragment sequence, and the same final
state as a call with any other grammar argument. -/
theorem C4_grammar_argument_ignored (eng : Engine) (st : GState) (T : List Int)
    (m : Int) (t : Int) (g1 g2 : Option String) :
    nativeGenerate eng st T m t g1 = nativeGenerate eng st T m t g2 := rfl

/-- C5: the claim says `endSession` never fails and calling it twice in a row
with the same argument is a no-op both times.  Evaluating the code on an
active session whose context lives at pointer 1: the first call releases
Context, then Sampler, then Batch Buffer (that part — and the order — matches
the code, as the event list shows), so it is not a no-op; the second call with
the same pointer reaches `llama_free` on the already-freed context — a double
free, i.e. undefined behaviour (`none`), not a no-op. -/
theorem C5_second_free_with_same_pointer_is_double_free :
    nativeFreeContext 1 ⟨[1], true, 3, true, some 1⟩ =
      some (⟨[], false, 0, false, none⟩,
        [Resource.context, Resource.sampler, Resource.batch]) ∧
    nativeFreeContext 1 ⟨[], false, 0, false, none⟩ = none := by
  refine ⟨rfl, rfl⟩

/-- C6: if evaluation fails mid-loop — the engine's decode calls from call
index `c ≥ 1` onwards reject their batch (`cutEngine e c`), so the failure
hits after `c - 1 ≥ 0` loop decodes have succeeded — then `generate` stops
and returns exactly what the run would have accumulated with `maxTokens`
truncated to `c`: the text, fragment sequence, counter, and final state all
agree, so already-produced output is never discarded.  (The iteration whose
decode fails has already delivered its fragment, since lines 244-256 precede
the decode at line 271.) -/
theorem C6_decode_failure_returns_accumulated_text (e : Engine) (st : GState)
    (T : List Int) (m : Int) (t : Int) (g : Option String) (c : Nat)
    (hc : 1 ≤ c) (he : ∀ k b, e.decodeOk k b = true) :
    nativeGenerate (cutEngine e c) st T m t g =
      nativeGenerate e st T (min m (c : Int)) t g := by
  rcases hsl : setLastLogits (promptFillAux st.batch T 0) with _ | b2
  · simp only [nativeGenerate, hsl]
  · simp only [nativeGenerate, hsl]
    have hdec0 : (cutEngine e c).decodeOk 0 b2 = true := by
      simp only [cutEngine, he, Bool.and_true]
      simpa using hc
    rw [hdec0, he 0, if_pos rfl, if_pos rfl]
    have hfuel : (min m (c : Int)).toNat = min m.toNat c := by omega
    have hcut := genLoop_cut e c he m.toNat 1 0 b2 [] "" [] (Nat.le_refl 1) hc
    have harg : c + 1 - 1 = c := by omega
    rw [harg] at hcut
    rw [hfuel, hcut]

/-- C6 witness: `engA` with all decodes failing from call index 1 (the first
loop decode) behaves like an `engA` run with `maxTokens` truncated to 1. -/
theorem C6_decode_failure_witness :
    nativeGenerate (cutEngine engA 1) ⟨[], []⟩ [1] 3 0 none =
      nativeGenerate engA ⟨[], []⟩ [1] (min 3 ((1 : Nat) : Int)) 0 none :=
  C6_decode_failure_returns_accumulated_text engA ⟨[], []⟩ [1] 3 0 none 1
    (by decide) (fun _ _ => rfl)

/-- C7: when the sampled token at step `k < maxTokens` is the EOS id (the
engine emits EOS exactly once the acceptance history holds `k` tokens),
generation terminates at step `k`: the run is identical to one with
`maxTokens = k + 1`, the final `n_generated` counter is `k + 1`, and —
because the EOS check (line 261) comes only after the fragment has been
appended and delivered (lines 247-256) — when the tokenizer maps the EOS id
to non-empty text, that fragment is the last one the sink received, at
step `k`. -/
theorem C7_eos_stops_after_delivering_fragment (eng : Engine) (st : GState)
    (T : List Int) (m : Int) (t : Int) (g : Option String) (k : Nat)
    (hdec : ∀ i b, eng.decodeOk i b = true)
    (heos : ∀ h i, List.length h = k → eng.sample h i = eng.eosId)
    (hne : ∀ h i, List.length h < k → eng.sample h i ≠ eng.eosId)
    (hk : (k : Int) < m) :
    nativeGenerate eng st T m t g =
        nativeGenerate eng st T ((k : Int) + 1) t g ∧
      ∀ o : LoopOut, nativeGenerate eng st T m t g = some o →
        o.nGen = k + 1 ∧
          (eng.tokenToPiece eng.eosId ≠ "" →
            o.frags.getLast? = some (k, eng.tokenToPiece eng.eosId)) := by
  rcases hsl : setLastLogits (promptFillAux st.batch T 0) with _ | b2
  · refine ⟨by simp only [nativeGenerate, hsl], ?_⟩
    intro o ho
    simp only [nativeGenerate, hsl] at ho
    exact absurd ho (by simp)
  · have hfuel1 : k + 1 ≤ m.toNat := by omega
    have hfuel2 : ((k : Int) + 1).toNat = k + 1 := by omega
    constructor
    · simp only [nativeGenerate, hsl, hdec 0 b2, if_pos rfl]
      rw [hfuel2,
        genLoop_eos_fuel eng k hdec heos hne k m.toNat (k + 1) 1 0 b2 [] "" []
          (by simp) (by omega) (by omega)]
    · intro o ho
      simp only [nativeGenerate, hsl, hdec 0 b2, if_pos rfl] at ho
      have ho2 := Option.some_inj.mp ho
      have := genLoop_eos_last eng k hdec heos hne k m.toNat 1 b2 [] "" []
        (by simp) (by omega)
      rw [show (([] : List Int)).length = 0 from rfl] at this
      rw [ho2] at this
      exact this

/-- C7 witness: `engB` with prompt `[1]` and `maxTokens = 5` stops at step 1,
behaves like a `maxTokens = 2` run, counts 2 generated tokens, and the sink's
last fragment is the rendered EOS text `"e"` at step 1. -/
theorem C7_eos_witness :
    (nativeGenerate engB ⟨[], []⟩ [1] 5 0 none =
        nativeGenerate engB ⟨[], []⟩ [1] (((1 : Nat) : Int) + 1) 0 none) ∧
      ((⟨"xe", [(0, "x"), (1, "e")], 2, [⟨7, 0, 0, true⟩], [7, 2]⟩ :
          LoopOut).nGen = 1 + 1 ∧
        (engB.tokenToPiece engB.eosId ≠ "" →
          (⟨"xe", [(0, "x"), (1, "e")], 2, [⟨7, 0, 0, true⟩], [7, 2]⟩ :
              LoopOut).frags.getLast? =
            some (1, engB.tokenToPiece engB.eosId))) := by
  have H := C7_eos_stops_after_delivering_fragment engB ⟨[], []⟩ [1] 5 0 none 1
    (fun _ _ => rfl)
    (by intro h i hh; simp [engB, hh])
    (by intro h i hh
        have h0 : h.length = 0 := by omega
        simp [engB, h0])
    (by decide)
  exact ⟨H.1, H.2 ⟨"xe", [(0, "x"), (1, "e")], 2, [⟨7, 0, 0, true⟩], [7, 2]⟩ rfl⟩

/-- C8: fragments are delivered to the sink in strictly increasing
generation-step order, every delivered fragment is non-empty (exactly the
non-empty fragments are delivered: an empty piece is neither appended nor
delivered, lines 247-256), and the concatenation of the delivered fragments
is byte for byte the text `generate` returns. -/
theorem C8_fragments_ordered_nonempty_concat_to_text (eng : Engine)
    (st : GState) (T : List Int) (m : Int) (t : Int) (g : Option String)
    (o : LoopOut) (h : nativeGenerate eng st T m t g = some o) :
    List.Pairwise (· < ·) (o.frags.map Prod.fst) ∧
      (∀ p ∈ o.frags, p.2 ≠ "") ∧
      String.join (o.frags.map Prod.snd) = o.text := by
  simp only [nativeGenerate] at h
  split at h
  · exact absurd h (by simp)
  · split at h
    · have ho := Option.some_inj.mp h
      obtain ⟨-, hB, hC, hD⟩ :=
        genLoop_frags_invariant eng _ _ _ _ _ _ _ _ ho
          (by intro p hp; exact absurd hp (List.not_mem_nil p))
          List.Pairwise.nil
          (by intro p hp; exact absurd hp (List.not_mem_nil p))
          rfl
      exact ⟨List.pairwise_map.mpr hB, hC, hD⟩
    · have ho := Option.some_inj.mp h
      subst ho
      exact ⟨List.Pairwise.nil, by intro p hp; exact absurd hp (List.not_mem_nil p), rfl⟩

/-- C8 witness: a concrete two-step run of `engA` delivering two fragments. -/
theorem C8_fragments_witness :
    List.Pairwise (· < ·)
        ((⟨"xx", [(0, "x"), (1, "x")], 2, [⟨7, 0, 0, true⟩], [7, 7]⟩ :
            LoopOut).frags.map Prod.fst) ∧
      (∀ p ∈ (⟨"xx", [(0, "x"), (1, "x")], 2, [⟨7, 0, 0, true⟩], [7, 7]⟩ :
          LoopOut).frags, p.2 ≠ "") ∧
      String.join
          ((⟨"xx", [(0, "x"), (1, "x")], 2, [⟨7, 0, 0, true⟩], [7, 7]⟩ :
              LoopOut).frags.map Prod.snd) =
        (⟨"xx", [(0, "x"), (1, "x")], 2, [⟨7, 0, 0, true⟩], [7, 7]⟩ :
            LoopOut).text :=
  C8_fragments_ordered_nonempty_concat_to_text engA ⟨[], []⟩ [1] 2 0 none
    ⟨"xx", [(0, "x"), (1, "x")], 2, [⟨7, 0, 0, true⟩], [7, 7]⟩ rfl

/-- C9: for `maxTokens = M ≥ 0` the loop body runs at most `M` times (the
embedding's loop is fuel-bounded by construction, so it terminates), and at
most `M` fragments are delivered to the sink. -/
theorem C9_loop_and_fragments_bounded_by_maxTokens (eng : Engine) (st : GState)
    (T : List Int) (t : Int) (g : Option String) (M : Nat) (o : LoopOut)
    (h : nativeGenerate eng st T (M : Int) t g = some o) :
    o.nGen ≤ M ∧ o.frags.length ≤ M := by
  simp only [nativeGenerate] at h
  split at h
  · exact absurd h (by simp)
  · split at h
    · have ho := Option.some_inj.mp h
      obtain ⟨hA, hB⟩ := genLoop_nGen_bound eng _ _ _ _ _ _ _ _ ho
        (Nat.le_refl 0)
      rw [Int.toNat_natCast] at hB
      exact ⟨by omega, by omega⟩
    · have ho := Option.some_inj.mp h
      subst ho
      exact ⟨Nat.zero_le M, Nat.zero_le M⟩

/-- C9 witness: the concrete two-step run of `engA` with `M = 2`. -/
theorem C9_bounded_witness :
    (⟨"xx", [(0, "x"), (1, "x")], 2, [⟨7, 0, 0, true⟩], [7, 7]⟩ :
        LoopOut).nGen ≤ 2 ∧
      (⟨"xx", [(0, "x"), (1, "x")], 2, [⟨7, 0, 0, true⟩], [7, 7]⟩ :
          LoopOut).frags.length ≤ 2 :=
  C9_loop_and_fragments_bounded_by_maxTokens engA ⟨[], []⟩ [1] 0 none 2
    ⟨"xx", [(0, "x"), (1, "x")], 2, [⟨7, 0, 0, true⟩], [7, 7]⟩ rfl

/-- C10: two `generate` calls identical except for the temperature argument
return the same text and deliver the same fragment sequence: the body of
`nativeGenerate` never reads its `temperature` parameter (sampling
hyperparameters were fixed when the sampler was created at session start). -/
theorem C10_temperature_argument_ignored (eng : Engine) (st : GState)
    (T : List Int) (m : Int) (t1 t2 : Int) (g : Option String) :
    nativeGenerate eng st T m t1 g = nativeGenerate eng st T m t2 g := rfl

end LlamaJni
